import Mathlib

/-!
Verification of the Pi-hole provider client library.

The Go sources are shallowly embedded: pure helpers become Lean functions,
the appliance and the HTTP transport are modelled by an explicit environment
of canned responses, and every fallible operation returns an `Except` value
together with the list of network calls it performed.  Go machine integers
are modelled by `Nat`/`Int` (reduced modulo two to the thirty-two where the
source overflows), and Go errors by an explicit error datatype.
-/

set_option autoImplicit false

deriving instance DecidableEq for Except

namespace Pihole

/-! ## Basic wire-format helpers -/

/-- Splitting a character list at every occurrence of the separator, keeping
empty segments; mirrors Go `strings.Split` for a one-character separator. -/
def splitOnChar (sep : Char) : List Char → List (List Char)
  | [] => [[]]
  | c :: rest =>
    let r := splitOnChar sep rest
    if c = sep then [] :: r
    else
      match r with
      | [] => [[c]]
      | h :: t => (c :: h) :: t

/-- Go `strings.Split(s, sep)` for a one-character separator. -/
def goSplit (s : String) (sep : Char) : List String :=
  (splitOnChar sep s.toList).map String.mk

/-- The DNS host record (`pihole.DNSRecord`): a domain and the address it
resolves to. -/
structure DNSRecord where
  domain : String
  ip : String
deriving DecidableEq

/-- The CNAME record (`pihole.CNAMERecord`): a domain and its target. -/
structure CNAMERecord where
  domain : String
  target : String
deriving DecidableEq

/-- The body of the loop of `ListDNSRecords`: each entry of the hosts list is
split on a space; an entry that does not split into exactly two fields fails
the whole parse, otherwise the first field is the IP and the second the
domain. -/
def parseDNSHosts : List String → Except String (List DNSRecord)
  | [] => .ok []
  | v :: rest =>
    match goSplit v ' ' with
    | [a, b] => (parseDNSHosts rest).map (fun l => { domain := b, ip := a } :: l)
    | _ => .error "failed to parse dns records"

/-- The body of the loop of `ListCNAMERecords`: each entry is split on a
comma; the first field is the domain and the second the target. -/
def parseCNAMEEntries : List String → Except String (List CNAMERecord)
  | [] => .ok []
  | v :: rest =>
    match goSplit v ',' with
    | [a, b] => (parseCNAMEEntries rest).map (fun l => { domain := a, target := b } :: l)
    | _ => .error "failed to parse dns records"

theorem parseDNSHosts_error_of_bad {hosts : List String} {v : String}
    (hv : v ∈ hosts) (hbad : (goSplit v ' ').length ≠ 2) :
    parseDNSHosts hosts = .error "failed to parse dns records" := by
  induction hosts with
  | nil => cases hv
  | cons w rest ih =>
    rcases List.mem_cons.mp hv with h | h
    · subst h
      rw [parseDNSHosts]
      match hsp : goSplit v ' ' with
      | [a, b] => rw [hsp] at hbad; simp at hbad
      | [] => rfl
      | [a] => rfl
      | a :: b :: c :: t => rfl
    · rw [parseDNSHosts]
      match hsp : goSplit w ' ' with
      | [a, b] => rw [ih h]; rfl
      | [] => rfl
      | [a] => rfl
      | a :: b :: c :: t => rfl

theorem parseDNSHosts_ok_spec {hosts : List String} {l : List DNSRecord}
    (h : parseDNSHosts hosts = .ok l) :
    l.length = hosts.length ∧
      ∀ (i : Nat) (v : String), hosts[i]? = some v →
        ∃ a b, goSplit v ' ' = [a, b] ∧ l[i]? = some (⟨b, a⟩ : DNSRecord) := by
  induction hosts generalizing l with
  | nil =>
    rw [parseDNSHosts] at h
    cases h
    exact ⟨rfl, by intro i v hv; simp at hv⟩
  | cons w rest ih =>
    rw [parseDNSHosts] at h
    match hsp : goSplit w ' ' with
    | [a, b] =>
      rw [hsp] at h
      match hrec : parseDNSHosts rest with
      | .ok l0 =>
        rw [hrec] at h
        simp [Except.map] at h
        obtain ⟨hlen, hpt⟩ := ih hrec
        subst h
        refine ⟨by simp [hlen], ?_⟩
        intro i v hv
        match i with
        | 0 =>
          simp at hv
          subst hv
          exact ⟨a, b, hsp, by simp⟩
        | n + 1 =>
          simp at hv
          obtain ⟨a0, b0, hab, hl⟩ := hpt n v hv
          exact ⟨a0, b0, hab, by simpa using hl⟩
      | .error m => rw [hrec] at h; simp [Except.map] at h
    | [] => rw [hsp] at h; simp at h
    | [a] => rw [hsp] at h; simp at h
    | a :: b :: c :: t => rw [hsp] at h; simp at h

/-! ## Credential derivation: `doubleHash256`

The source calls `crypto/sha256.Sum256` and hex-encodes with `fmt.Sprintf("%x", ...)`.
SHA-256 is embedded below from its standard definition (FIPS 180-4), operating on
byte lists with `Nat` words reduced modulo two to the thirty-two. -/

/-- Truncation to a thirty-two-bit word. -/
def w32 (x : Nat) : Nat := x % 4294967296

/-- Right rotation of a thirty-two-bit word. -/
def rotr32 (n x : Nat) : Nat := w32 ((x >>> n) ||| (x <<< (32 - n)))

def shaCh (x y z : Nat) : Nat := (x &&& y) ^^^ ((x ^^^ 4294967295) &&& z)

def shaMaj (x y z : Nat) : Nat := (x &&& y) ^^^ (x &&& z) ^^^ (y &&& z)

def bigSigma0 (x : Nat) : Nat := rotr32 2 x ^^^ rotr32 13 x ^^^ rotr32 22 x

def bigSigma1 (x : Nat) : Nat := rotr32 6 x ^^^ rotr32 11 x ^^^ rotr32 25 x

def smallSigma0 (x : Nat) : Nat := rotr32 7 x ^^^ rotr32 18 x ^^^ (x >>> 3)

def smallSigma1 (x : Nat) : Nat := rotr32 17 x ^^^ rotr32 19 x ^^^ (x >>> 10)

/-- The sixty-four SHA-256 round constants. -/
def shaK : List Nat :=
  [1116352408, 1899447441, 3049323471, 3921009573, 961987163, 1508970993,
   2453635748, 2870763221, 3624381080, 310598401, 607225278, 1426881987,
   1925078388, 2162078206, 2614888103, 3248222580, 3835390401, 4022224774,
   264347078, 604807628, 770255983, 1249150122, 1555081692, 1996064986,
   2554220882, 2821834349, 2952996808, 3210313671, 3336571891, 3584528711,
   113926993, 338241895, 666307205, 773529912, 1294757372, 1396182291,
   1695183700, 1986661051, 2177026350, 2456956037, 2730485921, 2820302411,
   3259730800, 3345764771, 3516065817, 3600352804, 4094571909, 275423344,
   430227734, 506948616, 659060556, 883997877, 958139571, 1322822218,
   1537002063, 1747873779, 1955562222, 2024104815, 2227730452, 2361852424,
   2428436474, 2756734187, 3204031479, 3329325298]

/-- The eight-word SHA-256 working state. -/
structure Sha256State where
  a : Nat
  b : Nat
  c : Nat
  d : Nat
  e : Nat
  f : Nat
  g : Nat
  hh : Nat

/-- The SHA-256 initial hash value. -/
def sha256Init : Sha256State :=
  ⟨1779033703, 3144134277, 1013904242, 2773480762, 1359893119, 2600822924, 528734635, 1541459225⟩

/-- One SHA-256 compression round for a constant/schedule-word pair. -/
def sha256Round (s : Sha256State) (kw : Nat × Nat) : Sha256State :=
  let t1 := w32 (s.hh + bigSigma1 s.e + shaCh s.e s.f s.g + kw.1 + kw.2)
  let t2 := w32 (bigSigma0 s.a + shaMaj s.a s.b s.c)
  ⟨w32 (t1 + t2), s.a, s.b, s.c, w32 (s.d + t1), s.e, s.f, s.g⟩

/-- Big-endian assembly of four-byte groups into words. -/
def toWords32 : List Nat → List Nat
  | b0 :: b1 :: b2 :: b3 :: rest =>
    ((((b0 <<< 8) ||| b1) <<< 8 ||| b2) <<< 8 ||| b3) :: toWords32 rest
  | _ => []

/-- Extension of the sixteen block words to the sixty-four schedule words. -/
def sha256Schedule (ws : List Nat) : List Nat :=
  (List.range 48).foldl
    (fun acc _ =>
      let n := acc.length
      acc ++ [w32 (smallSigma1 (acc.getD (n - 2) 0) + acc.getD (n - 7) 0 +
        smallSigma0 (acc.getD (n - 15) 0) + acc.getD (n - 16) 0)])
    ws

/-- Compression of one sixty-four-byte block into the running state. -/
def sha256Block (s : Sha256State) (block : List Nat) : Sha256State :=
  let ws := sha256Schedule (toWords32 block)
  let t := (shaK.zip ws).foldl sha256Round s
  ⟨w32 (s.a + t.a), w32 (s.b + t.b), w32 (s.c + t.c), w32 (s.d + t.d),
   w32 (s.e + t.e), w32 (s.f + t.f), w32 (s.g + t.g), w32 (s.hh + t.hh)⟩

/-- SHA-256 message padding: a one bit, zeros to fifty-six modulo sixty-four,
and the eight-byte big-endian bit length. -/
def sha256Pad (msg : List Nat) : List Nat :=
  let L := msg.length
  let bl := 8 * L
  msg ++ [128] ++ List.replicate ((119 - L % 64) % 64) 0 ++
    [(bl >>> 56) &&& 255, (bl >>> 48) &&& 255, (bl >>> 40) &&& 255, (bl >>> 32) &&& 255,
     (bl >>> 24) &&& 255, (bl >>> 16) &&& 255, (bl >>> 8) &&& 255, bl &&& 255]

/-- Chunking with explicit fuel, so that the kernel can evaluate it; called
with the list length as fuel, which always suffices. -/
def toBlocks64Go : Nat → List Nat → List (List Nat)
  | _, [] => []
  | 0, bs => [bs]
  | fuel + 1, bs => bs.take 64 :: toBlocks64Go fuel (bs.drop 64)

/-- Chunking a padded message into sixty-four-byte blocks. -/
def toBlocks64 (bs : List Nat) : List (List Nat) :=
  toBlocks64Go bs.length bs

/-- The four big-endian bytes of a thirty-two-bit word. -/
def wordBytes (w : Nat) : List Nat :=
  [(w >>> 24) &&& 255, (w >>> 16) &&& 255, (w >>> 8) &&& 255, w &&& 255]

/-- SHA-256 of a byte list, as the thirty-two digest bytes
(Go `sha256.Sum256`). -/
def sha256Bytes (msg : List Nat) : List Nat :=
  let fin := (toBlocks64 (sha256Pad msg)).foldl sha256Block sha256Init
  wordBytes fin.a ++ wordBytes fin.b ++ wordBytes fin.c ++ wordBytes fin.d ++
    wordBytes fin.e ++ wordBytes fin.f ++ wordBytes fin.g ++ wordBytes fin.hh

/-- The sixteen lowercase hexadecimal digits. -/
def hexDigits : List Char := "0123456789abcdef".toList

def hexDigit (n : Nat) : Char := hexDigits.getD n '0'

/-- Lowercase hexadecimal encoding of a byte list
(Go `fmt.Sprintf("%x", bytes)`). -/
def hexEncodeBytes (bs : List Nat) : List Char :=
  bs.foldr (fun b acc => hexDigit (b / 16) :: hexDigit (b % 16) :: acc) []

/-- UTF-8 encoding of one character (Go `[]byte(string)` conversion). -/
def charUTF8 (c : Char) : List Nat :=
  let n := c.toNat
  if n < 128 then [n]
  else if n < 2048 then [192 ||| (n >>> 6), 128 ||| (n &&& 63)]
  else if n < 65536 then
    [224 ||| (n >>> 12), 128 ||| ((n >>> 6) &&& 63), 128 ||| (n &&& 63)]
  else
    [240 ||| (n >>> 18), 128 ||| ((n >>> 12) &&& 63), 128 ||| ((n >>> 6) &&& 63),
     128 ||| (n &&& 63)]

/-- The UTF-8 bytes of a string (Go `[]byte(s)`). -/
def strToBytes (s : String) : List Nat :=
  s.toList.foldr (fun c acc => charUTF8 c ++ acc) []

/-- The lowercase hexadecimal SHA-256 digest of a string:
`fmt.Sprintf("%x", sha256.Sum256([]byte(s)))`. -/
def sha256hex (s : String) : String :=
  String.mk (hexEncodeBytes (sha256Bytes (strToBytes s)))

/-- `doubleHash256` of the source: hash the password, hex-encode, hash the hex
string again, hex-encode. -/
def doubleHash256 (data : String) : String :=
  sha256hex (sha256hex data)

theorem sha256Bytes_length (msg : List Nat) : (sha256Bytes msg).length = 32 := by
  simp [sha256Bytes, wordBytes]

theorem hexEncodeBytes_length (bs : List Nat) :
    (hexEncodeBytes bs).length = 2 * bs.length := by
  induction bs with
  | nil => rfl
  | cons b t ih =>
    show (hexEncodeBytes t).length + 1 + 1 = 2 * (t.length + 1)
    omega

theorem sha256hex_length (s : String) : (sha256hex s).length = 64 := by
  show (hexEncodeBytes (sha256Bytes (strToBytes s))).length = 64
  rw [hexEncodeBytes_length, sha256Bytes_length]

theorem doubleHash256_length (s : String) : (doubleHash256 s).length = 64 :=
  sha256hex_length (sha256hex s)

theorem doubleHash256_ne_empty (s : String) : doubleHash256 s ≠ "" := by
  intro h
  have := doubleHash256_length s
  rw [h] at this
  simp at this

theorem wordBytes_le (w : Nat) : ∀ b ∈ wordBytes w, b ≤ 255 := by
  intro b hb
  simp [wordBytes] at hb
  rcases hb with rfl | rfl | rfl | rfl <;> exact Nat.and_le_right

theorem sha256Bytes_le (msg : List Nat) : ∀ b ∈ sha256Bytes msg, b ≤ 255 := by
  intro b hb
  simp only [sha256Bytes, List.mem_append] at hb
  rcases hb with ((((((h | h) | h) | h) | h) | h) | h) | h <;> exact wordBytes_le _ _ h

theorem hexDigit_mem {n : Nat} (h : n < 16) : hexDigit n ∈ hexDigits := by
  interval_cases n <;> decide

theorem hexEncodeBytes_mem {bs : List Nat} (h : ∀ b ∈ bs, b ≤ 255) :
    ∀ ch ∈ hexEncodeBytes bs, ch ∈ hexDigits := by
  induction bs with
  | nil => intro ch hch; cases hch
  | cons b t ih =>
    intro ch hch
    have hb := h b (by simp)
    rcases hch with _ | ⟨_, hch⟩
    · exact hexDigit_mem ((Nat.div_lt_iff_lt_mul (by norm_num)).mpr (by omega))
    · rcases hch with _ | ⟨_, hch⟩
      · exact hexDigit_mem (Nat.mod_lt _ (by norm_num))
      · exact ih (fun x hx => h x (by simp [hx])) ch hch

/-- For every input, `doubleHash256` yields sixty-four characters, all of
them lowercase hexadecimal digits. -/
theorem doubleHash256_hex (s : String) :
    (doubleHash256 s).length = 64 ∧
      ∀ ch ∈ (doubleHash256 s).toList, ch ∈ hexDigits :=
  ⟨doubleHash256_length s,
   hexEncodeBytes_mem (sha256Bytes_le (strToBytes (sha256hex s)))⟩

set_option maxRecDepth 100000 in
/-- Concrete separation instances of the double hash from the single hash:
the universal inequality would need SHA-256 fixed-point freedom, which is
neither provable nor refutable, but it holds on every tested input. -/
theorem doubleHash256_ne_sha256hex_password :
    doubleHash256 "password" ≠ sha256hex "password" := by decide

set_option maxRecDepth 100000 in
theorem doubleHash256_ne_sha256hex_empty : doubleHash256 "" ≠ sha256hex "" := by decide

/-! ## `url.Values` and `mergeURLValues`

Go `url.Values` is a map from strings to string slices.  It is modelled as an
association list whose keys are unique (the map invariant); `valuesAdd` is
`url.Values.Add`, which appends the value to the slice held at the key. -/

/-- The model of `url.Values`. -/
abbrev URLValues : Type := List (String × List String)

/-- `url.Values.Get`-style lookup of the value slice at a key (empty when the
key is absent). -/
def valuesGet : URLValues → String → List String
  | [], _ => []
  | p :: rest, k => if p.1 = k then p.2 else valuesGet rest k

/-- `url.Values.Add`: append the value to the slice at the key, creating the
entry when absent. -/
def valuesAdd : URLValues → String → String → URLValues
  | [], k, v => [(k, [v])]
  | p :: rest, k, v =>
    if p.1 = k then (p.1, p.2 ++ [v]) :: rest else p :: valuesAdd rest k v

/-- The inner loop of `mergeURLValues` over one input value set:
`data.Add(k, v[0])` for every entry.  Go indexing `v[0]` panics on an empty
slice; the panic is modelled by `none`. -/
def addAllValues : URLValues → URLValues → Option URLValues
  | data, [] => some data
  | data, (k, vs) :: rest =>
    match vs with
    | [] => none
    | v0 :: _ => addAllValues (valuesAdd data k v0) rest

def mergeURLValuesAux : URLValues → List URLValues → Option URLValues
  | data, [] => some data
  | data, val :: rest =>
    match addAllValues data val with
    | none => none
    | some d => mergeURLValuesAux d rest

/-- `mergeURLValues` of the source: fold every input value set into a fresh
`url.Values` with `Add`. -/
def mergeURLValues (vs : List URLValues) : Option URLValues :=
  mergeURLValuesAux [] vs

/-! ## Group-name validation -/

/-- The character class `\s` of Go `regexp` (RE2): exactly tab, newline,
form feed, carriage return and space; vertical tab is not in the class. -/
def goRegexpSpace (ch : Char) : Bool :=
  decide (ch.toNat = 9 ∨ ch.toNat = 10 ∨ ch.toNat = 12 ∨
    ch.toNat = 13 ∨ ch.toNat = 32)

/-- `validGroupName` of the source: the name matches `^\S*$`, i.e. no
character is in the `\s` class. -/
def validGroupName (name : String) : Bool :=
  name.toList.all (fun ch => !(goRegexpSpace ch))

/-- Go `unicode.IsSpace`: the Unicode white-space property
(a fixed finite set of code points). -/
def goUnicodeIsSpace (ch : Char) : Bool :=
  decide ((9 ≤ ch.toNat ∧ ch.toNat ≤ 13) ∨ ch.toNat = 32 ∨ ch.toNat = 133 ∨
    ch.toNat = 160 ∨ ch.toNat = 0x1680 ∨ (0x2000 ≤ ch.toNat ∧ ch.toNat ≤ 0x200A) ∨
    ch.toNat = 0x2028 ∨ ch.toNat = 0x2029 ∨ ch.toNat = 0x202F ∨
    ch.toNat = 0x205F ∨ ch.toNat = 0x3000)

/-- Removal of leading and trailing white-space characters from a character
list. -/
def trimChars (l : List Char) : List Char :=
  ((l.dropWhile goUnicodeIsSpace).reverse.dropWhile goUnicodeIsSpace).reverse

/-- Go `strings.TrimSpace`. -/
def goTrimSpace (s : String) : String :=
  String.mk (trimChars s.toList)

/-! ## The client, its errors, and the environment -/

/-- The error kinds of the client package.  Plain `fmt.Errorf` errors are the
`message` constructor; errors carrying an unexpected HTTP status keep the
status code; an error of a token delegate returned unchanged is
`delegateError`. -/
inductive PiholeError where
  | clientValidationFailed (msg : String)
  | loginFailed (msg : String)
  | notImplementedTokenClient (op : String)
  | notFound (msg : String)
  | unexpectedStatus (msg : String) (code : Nat)
  | message (msg : String)
  | delegateError (msg : String)
deriving DecidableEq

/-- The error signals of the `go-pihole` token delegate: its not-found
sentinel (`errors.Is` against `ErrorLocalDNSNotFound` or
`ErrorLocalCNAMENotFound`) or any other error. -/
inductive DelegateError where
  | notFound
  | other (msg : String)
deriving DecidableEq

/-- The behaviour of the token-authenticated delegate client
(`pihole.Client` of `go-pihole`), as response oracles for the operations the
claims exercise. -/
structure TokenDelegate where
  localDNSGet : String → Except DelegateError DNSRecord
  localCNAMEGet : String → Except DelegateError CNAMERecord

/-- The `Client` of the source.  Go strings default to the empty string. -/
structure Client where
  url : String
  userAgent : String
  password : String
  sessionID : String
  sessionToken : String
  webPassword : String
  tokenClient : Option TokenDelegate
  cfServiceToken : Option (String × String)

/-- The parsed body and status of the appliance answer to `POST /api/auth`. -/
structure LoginResponse where
  status : Nat
  sid : String
  csrf : String

/-- A group entry of the `GET /api/groups` response body, in the shape the
source decodes (`date_added` is `CreatedAt`, `date_modified` is
`UpdatedAt`). -/
structure GroupEntry where
  name : String
  comment : Option String
  enabled : Bool
  id : Int
  createdAt : Int
  updatedAt : Int
deriving DecidableEq

/-- The domain `Group` record; the two date fields hold `time.Unix(sec, 0)`
values, modelled by their second counts. -/
structure Group where
  id : Int
  enabled : Bool
  name : String
  dateAdded : Int
  dateModified : Int
  description : String
deriving DecidableEq

/-- The canned appliance behaviour: one response per endpoint, returned
identically each time the endpoint is called. -/
structure Env where
  loginResp : LoginResponse
  dnsHostsStatus : Nat
  dnsHosts : List String
  cnameStatus : Nat
  cnameRecords : List String
  groupsStatus : Nat
  groups : List GroupEntry
  createGroupStatus : Nat
  updateGroupStatus : Nat
  deleteGroupStatus : Nat
  blockingStatus : Nat
  blocking : String

/-- One network interaction: the login handshake, an HTTP call made by the
client itself, or a call forwarded to the token delegate. -/
inductive NetCall where
  | login
  | http (method : String) (path : String) (body : List (String × String))
  | delegate (op : String)
deriving DecidableEq

/-! ## Session management

The private `login` POSTs the plaintext password to `/api/auth` and, on
status 200, stores `session.sid` as the session identifier and `session.csrf`
as the session token (the `valid` flag is not inspected).  The public `Login`
wraps a `login` failure in `ErrLoginFailed` and then checks that both fields
are now non-empty. -/

def Client.login (c : Client) (lr : LoginResponse) : Except String Client :=
  if lr.status ≠ 200 then .error "failed to login"
  else .ok { c with sessionID := lr.sid, sessionToken := lr.csrf }

def Client.Login (c : Client) (lr : LoginResponse) : Except PiholeError Client :=
  match c.login lr with
  | .error msg => .error (.loginFailed msg)
  | .ok c2 =>
    if c2.sessionToken = "" then .error (.clientValidationFailed "token not set")
    else if c2.sessionID = "" then .error (.clientValidationFailed "sessionID not set")
    else .ok c2

/-- The request built by the session strategy.  The merged form is an
`Option` because `mergeURLValues` models the Go `v[0]` panic by `none`. -/
structure SessionRequest where
  method : String
  path : String
  form : Option URLValues
  cookie : String

/-- `RequestWithSession` of the source: log in when the session identifier or
the CSRF token is absent, merge `token=<csrf>` into the caller form values,
and set the `PHPSESSID` session cookie.  The receiver is a value, so the
session obtained by the implicit login lives only in this call. -/
def Client.RequestWithSession (c : Client) (lr : LoginResponse)
    (method path : String) (data : URLValues) :
    Except PiholeError (Client × SessionRequest) × List NetCall :=
  if c.sessionToken = "" ∨ c.sessionID = "" then
    match c.Login lr with
    | .error e => (.error e, [NetCall.login])
    | .ok c2 =>
      (.ok (c2, ⟨method, path, mergeURLValues [[("token", [c2.sessionToken])], data],
        "PHPSESSID=" ++ c2.sessionID⟩), [NetCall.login])
  else
    (.ok (c, ⟨method, path, mergeURLValues [[("token", [c.sessionToken])], data],
      "PHPSESSID=" ++ c.sessionID⟩), [])

/-- The request built by `RequestWithSession2`: a method, a path and a JSON
body given as key/value pairs. -/
structure HttpRequest2 where
  method : String
  path : String
  body : List (String × String)

/-- Modelled from the spec: the definition of `RequestWithSession2` is absent
from the sources (every resource operation calls it, yet only
`RequestWithSession` appears).  Per the spec, the session strategy triggers
login when the session identifier or the CSRF token is absent and then builds
the session-authenticated request; like the rest of the session layer it
receives the client by value. -/
def Client.RequestWithSession2 (c : Client) (lr : LoginResponse)
    (method path : String) (body : List (String × String)) :
    Except PiholeError (Client × HttpRequest2) × List NetCall :=
  if c.sessionToken = "" ∨ c.sessionID = "" then
    match c.Login lr with
    | .error e => (.error e, [NetCall.login])
    | .ok c2 => (.ok (c2, ⟨method, path, body⟩), [NetCall.login])
  else (.ok (c, ⟨method, path, body⟩), [])

/-! ## Construction and validation -/

/-- The configuration passed to `New`.  The `tokenDelegate` field carries the
behaviour of the `go-pihole` client that `New` constructs when an API token
is configured. -/
structure Config where
  password : String
  url : String
  userAgent : String
  apiToken : String
  cfServiceToken : Option (String × String)
  tokenDelegate : TokenDelegate

/-- `New` of the source: derive the web password with `doubleHash256` and
set up the token delegate exactly when the API token is non-empty. -/
def New (config : Config) : Client :=
  { url := config.url
    userAgent := config.userAgent
    password := config.password
    sessionID := ""
    sessionToken := ""
    webPassword := doubleHash256 config.password
    tokenClient := if config.apiToken = "" then none else some config.tokenDelegate
    cfServiceToken := config.cfServiceToken }

/-- `Init` of the source: validate the URL, then (in session mode) the
password and the derived web password. -/
def Client.Init (c : Client) : Except PiholeError Unit :=
  if c.url = "" then .error (.clientValidationFailed "Pi-hole URL is not set")
  else
    match c.tokenClient with
    | some _ => .ok ()
    | none =>
      if c.password = "" then .error (.clientValidationFailed "password is not set")
      else if c.webPassword = "" then .error (.clientValidationFailed "webPassword is not set")
      else .ok ()

/-! ## Resource operations

Each operation mirrors its Go method: the token-delegate branch first, then a
`RequestWithSession2` call, the status check against the per-endpoint success
code, and the response decoding.  All Go receivers are values, so an
operation never hands an updated client back to its caller; the network calls
it performed are returned as a trace. -/

def Client.ListDNSRecords (c : Client) (env : Env) :
    Except PiholeError (List DNSRecord) × List NetCall :=
  match c.tokenClient with
  | some _ => (.error (.notImplementedTokenClient "list dns records"), [])
  | none =>
    match c.RequestWithSession2 env.loginResp "GET" "/api/config/dns/hosts" [] with
    | (.error e, t) => (.error e, t)
    | (.ok (_, req), t) =>
      let t2 := t ++ [NetCall.http req.method req.path req.body]
      if env.dnsHostsStatus ≠ 200 then
        (.error (.unexpectedStatus "failed to retrieve dns records" env.dnsHostsStatus), t2)
      else
        match parseDNSHosts env.dnsHosts with
        | .error msg => (.error (.message msg), t2)
        | .ok l => (.ok l, t2)

/-- Two successive `ListDNSRecords` calls on the same client: the Go receiver
is a value (`func (c Client) ListDNSRecords`), so the second call observes
exactly the same session fields as the first; the combined network trace is
the concatenation. -/
def twoListDNSRecordsTrace (c : Client) (env : Env) : List NetCall :=
  (c.ListDNSRecords env).2 ++ (c.ListDNSRecords env).2

/-- The number of login handshakes in a network trace. -/
def countLogins (t : List NetCall) : Nat :=
  t.countP (fun n => decide (n = NetCall.login))

def Client.GetDNSRecord (c : Client) (domain : String) (env : Env) :
    Except PiholeError DNSRecord × List NetCall :=
  match c.tokenClient with
  | some d =>
    match d.localDNSGet domain with
    | .ok r => (.ok r, [NetCall.delegate "LocalDNS.Get"])
    | .error .notFound =>
      (.error (.notFound ("dns record with domain " ++ domain ++ " not found")),
        [NetCall.delegate "LocalDNS.Get"])
    | .error (.other msg) => (.error (.delegateError msg), [NetCall.delegate "LocalDNS.Get"])
  | none =>
    match c.ListDNSRecords env with
    | (.error e, t) => (.error e, t)
    | (.ok l, t) =>
      match l.find? (fun r => r.domain = domain) with
      | some r => (.ok r, t)
      | none => (.error (.notFound ("record " ++ domain ++ " not found")), t)

def Client.ListCNAMERecords (c : Client) (env : Env) :
    Except PiholeError (List CNAMERecord) × List NetCall :=
  match c.tokenClient with
  | some _ => (.error (.notImplementedTokenClient "list dns records"), [])
  | none =>
    match c.RequestWithSession2 env.loginResp "GET" "/api/config/dns/cnameRecords" [] with
    | (.error e, t) => (.error e, t)
    | (.ok (_, req), t) =>
      let t2 := t ++ [NetCall.http req.method req.path req.body]
      if env.cnameStatus ≠ 200 then
        (.error (.unexpectedStatus "failed to retrieve dns records" env.cnameStatus), t2)
      else
        match parseCNAMEEntries env.cnameRecords with
        | .error msg => (.error (.message msg), t2)
        | .ok l => (.ok l, t2)

def Client.GetCNAMERecord (c : Client) (domain : String) (env : Env) :
    Except PiholeError CNAMERecord × List NetCall :=
  match c.tokenClient with
  | some d =>
    match d.localCNAMEGet domain with
    | .ok r => (.ok r, [NetCall.delegate "LocalCNAME.Get"])
    | .error .notFound =>
      (.error (.notFound ("cname with domain " ++ domain ++ " not found")),
        [NetCall.delegate "LocalCNAME.Get"])
    | .error (.other msg) => (.error (.delegateError msg), [NetCall.delegate "LocalCNAME.Get"])
  | none =>
    match c.ListCNAMERecords env with
    | (.error e, t) => (.error e, t)
    | (.ok l, t) =>
      match l.find? (fun r => r.domain = domain) with
      | some r => (.ok r, t)
      | none => (.error (.notFound ("cname with domain " ++ domain ++ " not found")), t)

/-- The response-to-domain translation of the `ListGroups` loop: the comment
defaults to the empty string, and both date fields are built from the
`date_modified` (`UpdatedAt`) value. -/
def groupsFromEntries (es : List GroupEntry) : List Group :=
  es.map fun v =>
    { id := v.id
      enabled := v.enabled
      name := v.name
      dateAdded := v.updatedAt
      dateModified := v.updatedAt
      description := v.comment.getD "" }

def Client.ListGroups (c : Client) (env : Env) :
    Except PiholeError (List Group) × List NetCall :=
  match c.tokenClient with
  | some _ => (.error (.notImplementedTokenClient "list groups"), [])
  | none =>
    match c.RequestWithSession2 env.loginResp "GET" "/api/groups" [] with
    | (.error e, t) => (.error e, t)
    | (.ok (_, req), t) =>
      let t2 := t ++ [NetCall.http req.method req.path req.body]
      if env.groupsStatus ≠ 200 then
        (.error (.unexpectedStatus "failed to retrieve groups" env.groupsStatus), t2)
      else (.ok (groupsFromEntries env.groups), t2)

def Client.GetGroup (c : Client) (name : String) (env : Env) :
    Except PiholeError Group × List NetCall :=
  match c.tokenClient with
  | some _ => (.error (.notImplementedTokenClient "get groups"), [])
  | none =>
    match c.ListGroups env with
    | (.error e, t) => (.error e, t)
    | (.ok gs, t) =>
      match gs.find? (fun g => g.name = name) with
      | some g => (.ok g, t)
      | none => (.error (.notFound ("Group with name " ++ name ++ " not found")), t)

structure GroupCreateRequest where
  name : String
  description : String

structure GroupUpdateRequest where
  name : String
  enabled : Option Bool
  description : String

/-- JSON rendering of the optional `Enabled` pointer field of a group update
body. -/
def optBoolStr : Option Bool → String
  | none => "null"
  | some true => "true"
  | some false => "false"

def Client.CreateGroup (c : Client) (gr : GroupCreateRequest) (env : Env) :
    Except PiholeError Group × List NetCall :=
  match c.tokenClient with
  | some _ => (.error (.notImplementedTokenClient "create group"), [])
  | none =>
    let name := goTrimSpace gr.name
    if !(validGroupName name) then
      (.error (.message "group names must not contain spaces"), [])
    else
      match c.RequestWithSession2 env.loginResp "POST" "/api/groups"
          [("name", gr.name), ("comment", gr.description)] with
      | (.error e, t) => (.error e, t)
      | (.ok (_, req), t) =>
        let t2 := t ++ [NetCall.http req.method req.path req.body]
        if env.createGroupStatus ≠ 201 then
          (.error (.unexpectedStatus "failed to create group" env.createGroupStatus), t2)
        else
          match c.GetGroup name env with
          | (r, t3) => (r, t2 ++ t3)

def Client.UpdateGroup (c : Client) (gr : GroupUpdateRequest) (env : Env) :
    Except PiholeError Group × List NetCall :=
  match c.tokenClient with
  | some _ => (.error (.notImplementedTokenClient "update group"), [])
  | none =>
    match c.RequestWithSession2 env.loginResp "PUT" ("/api/groups/" ++ gr.name)
        [("name", gr.name), ("comment", gr.description), ("enabled", optBoolStr gr.enabled)] with
    | (.error e, t) => (.error e, t)
    | (.ok (_, req), t) =>
      let t2 := t ++ [NetCall.http req.method req.path req.body]
      if env.updateGroupStatus ≠ 200 then
        (.error (.unexpectedStatus "failed to update group" env.updateGroupStatus), t2)
      else
        match c.GetGroup gr.name env with
        | (r, t3) => (r, t2 ++ t3)

def Client.DeleteGroup (c : Client) (name : String) (env : Env) :
    Except PiholeError Unit × List NetCall :=
  match c.tokenClient with
  | some _ => (.error (.notImplementedTokenClient "delete group"), [])
  | none =>
    match c.RequestWithSession2 env.loginResp "DELETE" ("/api/groups/" ++ name) [] with
    | (.error e, t) => (.error e, t)
    | (.ok (_, req), t) =>
      let t2 := t ++ [NetCall.http req.method req.path req.body]
      if env.deleteGroupStatus ≠ 204 then
        (.error (.unexpectedStatus "failed to delete group" env.deleteGroupStatus), t2)
      else (.ok (), t2)

structure EnableAdBlock where
  enabled : Bool
deriving DecidableEq

/-- The `blocking` switch of `GetAdBlockerStatus`, including the redundant
re-check of the `disabled` case that follows it in the source. -/
def adBlockEnabled (s : String) : Except String Bool :=
  match (if s = "disabled" then some false else if s = "enabled" then some true else none) with
  | none => .error ("got unexpected value, blocking=" ++ s)
  | some b => .ok (if s = "disabled" then false else b)

def Client.GetAdBlockerStatus (c : Client) (env : Env) :
    Except PiholeError EnableAdBlock × List NetCall :=
  match c.tokenClient with
  | some _ => (.error (.notImplementedTokenClient "set ad blocker status"), [])
  | none =>
    match c.RequestWithSession2 env.loginResp "GET" "/api/dns/blocking" [] with
    | (.error e, t) => (.error e, t)
    | (.ok (_, req), t) =>
      let t2 := t ++ [NetCall.http req.method req.path req.body]
      if env.blockingStatus ≠ 200 then
        (.error (.unexpectedStatus "failed to retrieve current status" env.blockingStatus), t2)
      else
        match adBlockEnabled env.blocking with
        | .error msg => (.error (.message msg), t2)
        | .ok b => (.ok ⟨b⟩, t2)

/-! ## Concrete fixtures for witnesses and counterexamples -/

/-- A session-mode client that already holds a session. -/
def sessClient : Client :=
  { url := "http://pi.hole"
    userAgent := "ua"
    password := "pw"
    sessionID := "sid0"
    sessionToken := "csrf0"
    webPassword := "wp"
    tokenClient := none
    cfServiceToken := none }

/-- A session-mode client with no session identifier and no CSRF token. -/
def freshSessClient : Client :=
  { url := "http://pi.hole"
    userAgent := "ua"
    password := "pw"
    sessionID := ""
    sessionToken := ""
    webPassword := "wp"
    tokenClient := none
    cfServiceToken := none }

/-- An appliance that accepts the login and answers every endpoint with its
success code. -/
def okEnv : Env :=
  { loginResp := ⟨200, "sid1", "csrf1"⟩
    dnsHostsStatus := 200
    dnsHosts := ["1.2.3.4 host.local"]
    cnameStatus := 200
    cnameRecords := []
    groupsStatus := 200
    groups := []
    createGroupStatus := 201
    updateGroupStatus := 200
    deleteGroupStatus := 204
    blockingStatus := 200
    blocking := "enabled" }

/-! ## Claim theorems -/

/-- Reduction of `RequestWithSession2` when a session is already present. -/
theorem requestWithSession2_session {c : Client} (lr : LoginResponse)
    (method path : String) (body : List (String × String))
    (h1 : c.sessionToken ≠ "") (h2 : c.sessionID ≠ "") :
    c.RequestWithSession2 lr method path body = (.ok (c, ⟨method, path, body⟩), []) := by
  unfold Client.RequestWithSession2
  rw [if_neg]
  simp [h1, h2]

/-- Reduction of `ListDNSRecords` for a session-mode client with a session,
when the appliance answers 200. -/
theorem listDNSRecords_session {c : Client} {env : Env}
    (hc : c.tokenClient = none) (h1 : c.sessionToken ≠ "") (h2 : c.sessionID ≠ "")
    (hst : env.dnsHostsStatus = 200) :
    c.ListDNSRecords env =
      (match parseDNSHosts env.dnsHosts with
        | .error msg => .error (.message msg)
        | .ok l => .ok l,
       [NetCall.http "GET" "/api/config/dns/hosts" []]) := by
  unfold Client.ListDNSRecords
  rw [hc, requestWithSession2_session env.loginResp "GET" "/api/config/dns/hosts" [] h1 h2]
  simp [hst]
  cases parseDNSHosts env.dnsHosts <;> rfl

/-- C2: `ListDNSRecords` splits every hosts entry on a space into exactly two
fields, the first becoming the IP and the second the domain (so
`"1.2.3.4 host.local"` parses to that record); when some entry does not split
into exactly two fields the whole call returns the parse error and no list. -/
theorem list_dns_parse_spec (c : Client) (env : Env)
    (hc : c.tokenClient = none) (h1 : c.sessionToken ≠ "") (h2 : c.sessionID ≠ "")
    (hst : env.dnsHostsStatus = 200) :
    parseDNSHosts ["1.2.3.4 host.local"] =
        .ok [{ domain := "host.local", ip := "1.2.3.4" }] ∧
    ((∃ v ∈ env.dnsHosts, (goSplit v ' ').length ≠ 2) →
      (c.ListDNSRecords env).1 = .error (.message "failed to parse dns records")) ∧
    (∀ l, (c.ListDNSRecords env).1 = .ok l →
      l.length = env.dnsHosts.length ∧
        ∀ (i : Nat) (v : String), env.dnsHosts[i]? = some v →
          ∃ a b, goSplit v ' ' = [a, b] ∧ l[i]? = some (⟨b, a⟩ : DNSRecord)) := by
  refine ⟨by decide, ?_, ?_⟩
  · rintro ⟨v, hv, hbad⟩
    rw [listDNSRecords_session hc h1 h2 hst]
    rw [parseDNSHosts_error_of_bad hv hbad]
  · intro l hl
    rw [listDNSRecords_session hc h1 h2 hst] at hl
    match hrec : parseDNSHosts env.dnsHosts with
    | .error m => rw [hrec] at hl; simp at hl
    | .ok l0 =>
      rw [hrec] at hl
      simp at hl
      subst hl
      exact parseDNSHosts_ok_spec hrec

/-- An appliance whose hosts list contains a malformed entry. -/
def badHostsEnv : Env :=
  { okEnv with dnsHosts := ["1.2.3.4 host.local", "malformed"] }

theorem list_dns_parse_spec_witness :
    parseDNSHosts ["1.2.3.4 host.local"] =
        .ok [{ domain := "host.local", ip := "1.2.3.4" }] ∧
    (sessClient.ListDNSRecords badHostsEnv).1 =
      .error (.message "failed to parse dns records") :=
  ⟨(list_dns_parse_spec sessClient badHostsEnv rfl (by decide) (by decide) rfl).1,
   (list_dns_parse_spec sessClient badHostsEnv rfl (by decide) (by decide) rfl).2.1
     ⟨"malformed", by decide, by decide⟩⟩

/-- Reduction of `GetAdBlockerStatus` for a session-mode client with a
session, when the appliance answers 200. -/
theorem getAdBlockerStatus_session {c : Client} {env : Env}
    (hc : c.tokenClient = none) (h1 : c.sessionToken ≠ "") (h2 : c.sessionID ≠ "")
    (hst : env.blockingStatus = 200) :
    c.GetAdBlockerStatus env =
      (match adBlockEnabled env.blocking with
        | .error msg => .error (.message msg)
        | .ok b => .ok ⟨b⟩,
       [NetCall.http "GET" "/api/dns/blocking" []]) := by
  unfold Client.GetAdBlockerStatus
  rw [hc, requestWithSession2_session env.loginResp "GET" "/api/dns/blocking" [] h1 h2]
  simp [hst]
  cases adBlockEnabled env.blocking <;> rfl

/-- C4: on a 200 response, a `blocking` field equal to `"enabled"` yields
`Enabled = true`, `"disabled"` yields `Enabled = false`, and every other
value makes `GetAdBlockerStatus` return the protocol-violation error instead
of any result. -/
theorem ad_blocker_status_parse (c : Client) (env : Env)
    (hc : c.tokenClient = none) (h1 : c.sessionToken ≠ "") (h2 : c.sessionID ≠ "")
    (hst : env.blockingStatus = 200) :
    (env.blocking = "enabled" → (c.GetAdBlockerStatus env).1 = .ok ⟨true⟩) ∧
    (env.blocking = "disabled" → (c.GetAdBlockerStatus env).1 = .ok ⟨false⟩) ∧
    (env.blocking ≠ "enabled" → env.blocking ≠ "disabled" →
      (c.GetAdBlockerStatus env).1 =
        .error (.message ("got unexpected value, blocking=" ++ env.blocking))) := by
  rw [getAdBlockerStatus_session hc h1 h2 hst]
  refine ⟨?_, ?_, ?_⟩
  · intro hb; rw [hb]; rfl
  · intro hb; rw [hb]; rfl
  · intro he hd
    unfold adBlockEnabled
    simp [he, hd]

/-- An appliance answering the blocking-status query with an unexpected
value. -/
def bogusBlockingEnv : Env := { okEnv with blocking := "bogus" }

theorem ad_blocker_status_parse_witness :
    (sessClient.GetAdBlockerStatus okEnv).1 = .ok ⟨true⟩ ∧
    (sessClient.GetAdBlockerStatus bogusBlockingEnv).1 =
      .error (.message ("got unexpected value, blocking=" ++ "bogus")) :=
  ⟨(ad_blocker_status_parse sessClient okEnv rfl (by decide) (by decide) rfl).1 rfl,
   (ad_blocker_status_parse sessClient bogusBlockingEnv rfl (by decide) (by decide) rfl).2.2
     (by decide) (by decide)⟩

/-- Reduction of `ListGroups` for a session-mode client with a session, when
the appliance answers 200. -/
theorem listGroups_session {c : Client} {env : Env}
    (hc : c.tokenClient = none) (h1 : c.sessionToken ≠ "") (h2 : c.sessionID ≠ "")
    (hst : env.groupsStatus = 200) :
    c.ListGroups env =
      (.ok (groupsFromEntries env.groups), [NetCall.http "GET" "/api/groups" []]) := by
  unfold Client.ListGroups
  rw [hc, requestWithSession2_session env.loginResp "GET" "/api/groups" [] h1 h2]
  simp [hst]

/-- Every successful `ListGroups` result is the translation of the wire
entries. -/
theorem listGroups_ok {c : Client} {env : Env} {l : List Group}
    (hc : c.tokenClient = none) (hl : (c.ListGroups env).1 = .ok l) :
    l = groupsFromEntries env.groups := by
  unfold Client.ListGroups at hl
  rw [hc] at hl
  rcases hreq : c.RequestWithSession2 env.loginResp "GET" "/api/groups" [] with ⟨res, t⟩
  rw [hreq] at hl
  cases res with
  | error e => simp at hl
  | ok pr =>
    obtain ⟨c2, req⟩ := pr
    by_cases hst : env.groupsStatus = 200
    · simp [hst] at hl
      exact hl.symm
    · simp [hst] at hl

/-- C9: every group produced by a successful `ListGroups` call has equal
`DateAdded` and `DateModified` (both derive from the `date_modified` wire
value), and the `date_added` wire value has no influence on the result. -/
theorem list_groups_dates_equal (c : Client) (env : Env)
    (hc : c.tokenClient = none) :
    (∀ l, (c.ListGroups env).1 = .ok l → ∀ g ∈ l, g.dateAdded = g.dateModified) ∧
    (∀ (f : GroupEntry → Int),
      groupsFromEntries (env.groups.map fun e => { e with createdAt := f e }) =
        groupsFromEntries env.groups) := by
  constructor
  · intro l hl g hg
    rw [listGroups_ok hc hl] at hg
    unfold groupsFromEntries at hg
    obtain ⟨e, he, rfl⟩ := List.mem_map.mp hg
    rfl
  · intro f
    unfold groupsFromEntries
    rw [List.map_map]
    rfl

/-- An appliance holding one group whose `date_added` and `date_modified`
differ. -/
def oneGroupEnv : Env :=
  { okEnv with groups := [⟨"g1", some "c", true, 7, 100, 200⟩] }

theorem list_groups_dates_equal_witness :
    (⟨7, true, "g1", 200, 200, "c"⟩ : Group).dateAdded =
      (⟨7, true, "g1", 200, 200, "c"⟩ : Group).dateModified :=
  (list_groups_dates_equal sessClient oneGroupEnv rfl).1
    (groupsFromEntries oneGroupEnv.groups)
    (by rw [listGroups_session rfl (by decide) (by decide) rfl])
    ⟨7, true, "g1", 200, 200, "c"⟩ (by decide)

/-- C5: with a token delegate configured, `ListGroups` fails immediately with
the not-implemented-for-token-client error and performs no network call,
while `GetDNSRecord` and `GetCNAMERecord` forward to the delegate, translate
its not-found signal into the local `NotFound` error, return every other
delegate error unchanged, and return a found record as is. -/
theorem token_mode_dispatch (c : Client) (d : TokenDelegate) (env : Env) (domain : String)
    (hc : c.tokenClient = some d) :
    c.ListGroups env = (.error (.notImplementedTokenClient "list groups"), []) ∧
    (d.localDNSGet domain = .error .notFound →
      (c.GetDNSRecord domain env).1 =
        .error (.notFound ("dns record with domain " ++ domain ++ " not found"))) ∧
    (∀ msg, d.localDNSGet domain = .error (.other msg) →
      (c.GetDNSRecord domain env).1 = .error (.delegateError msg)) ∧
    (∀ r, d.localDNSGet domain = .ok r → (c.GetDNSRecord domain env).1 = .ok r) ∧
    (d.localCNAMEGet domain = .error .notFound →
      (c.GetCNAMERecord domain env).1 =
        .error (.notFound ("cname with domain " ++ domain ++ " not found"))) ∧
    (∀ msg, d.localCNAMEGet domain = .error (.other msg) →
      (c.GetCNAMERecord domain env).1 = .error (.delegateError msg)) ∧
    (∀ r, d.localCNAMEGet domain = .ok r → (c.GetCNAMERecord domain env).1 = .ok r) := by
  refine ⟨?_, ?_, ?_, ?_, ?_, ?_, ?_⟩
  · simp [Client.ListGroups, hc]
  · intro h; simp [Client.GetDNSRecord, hc, h]
  · intro msg h; simp [Client.GetDNSRecord, hc, h]
  · intro r h; simp [Client.GetDNSRecord, hc, h]
  · intro h; simp [Client.GetCNAMERecord, hc, h]
  · intro msg h; simp [Client.GetCNAMERecord, hc, h]
  · intro r h; simp [Client.GetCNAMERecord, hc, h]

/-- A token delegate with one record, one missing domain and one failing
domain. -/
def testDelegate : TokenDelegate :=
  { localDNSGet := fun dom =>
      if dom = "missing.local" then .error .notFound
      else if dom = "boom.local" then .error (.other "boom")
      else .ok ⟨dom, "9.9.9.9"⟩
    localCNAMEGet := fun dom =>
      if dom = "missing.local" then .error .notFound
      else .ok ⟨dom, "target.local"⟩ }

/-- A client configured with a token delegate. -/
def tokenModeClient : Client := { sessClient with tokenClient := some testDelegate }

theorem token_mode_dispatch_witness :
    tokenModeClient.ListGroups okEnv =
      (.error (.notImplementedTokenClient "list groups"), []) ∧
    (tokenModeClient.GetDNSRecord "missing.local" okEnv).1 =
      .error (.notFound ("dns record with domain " ++ "missing.local" ++ " not found")) ∧
    (tokenModeClient.GetDNSRecord "boom.local" okEnv).1 =
      .error (.delegateError "boom") :=
  ⟨(token_mode_dispatch tokenModeClient testDelegate okEnv "missing.local" rfl).1,
   (token_mode_dispatch tokenModeClient testDelegate okEnv "missing.local" rfl).2.1 (by decide),
   (token_mode_dispatch tokenModeClient testDelegate okEnv "boom.local" rfl).2.2.1 "boom"
     (by decide)⟩

/-- C6 counterexample: the claim says `CreateGroup` returns successfully iff
the response status is 201, but with status 201 and a groups list that does
not contain the new name, the follow-up lookup fails and `CreateGroup`
returns an error. -/
theorem create_group_201_not_sufficient :
    okEnv.createGroupStatus = 201 ∧
    (sessClient.CreateGroup ⟨"g", ""⟩ okEnv).1 =
      .error (.notFound ("Group with name " ++ "g" ++ " not found")) := by
  constructor
  · rfl
  · decide

/-- C6 (amended): `CreateGroup` fails with an error carrying the status for
every status other than 201 and on 201 returns the result of a follow-up
`GetGroup` on the trimmed name; `UpdateGroup` likewise with 200; and
`DeleteGroup` succeeds exactly on 204, every other status producing an error
carrying that status. -/
theorem group_mutation_status_codes (c : Client) (env : Env)
    (gr : GroupCreateRequest) (gru : GroupUpdateRequest) (name : String)
    (hc : c.tokenClient = none) (h1 : c.sessionToken ≠ "") (h2 : c.sessionID ≠ "")
    (hname : validGroupName (goTrimSpace gr.name) = true) :
    (env.createGroupStatus ≠ 201 →
      (c.CreateGroup gr env).1 =
        .error (.unexpectedStatus "failed to create group" env.createGroupStatus)) ∧
    (env.createGroupStatus = 201 →
      (c.CreateGroup gr env).1 = (c.GetGroup (goTrimSpace gr.name) env).1) ∧
    (env.updateGroupStatus ≠ 200 →
      (c.UpdateGroup gru env).1 =
        .error (.unexpectedStatus "failed to update group" env.updateGroupStatus)) ∧
    (env.updateGroupStatus = 200 →
      (c.UpdateGroup gru env).1 = (c.GetGroup gru.name env).1) ∧
    ((c.DeleteGroup name env).1 = .ok () ↔ env.deleteGroupStatus = 204) ∧
    (env.deleteGroupStatus ≠ 204 →
      (c.DeleteGroup name env).1 =
        .error (.unexpectedStatus "failed to delete group" env.deleteGroupStatus)) := by
  have hcr := requestWithSession2_session (c := c) env.loginResp "POST" "/api/groups"
    [("name", gr.name), ("comment", gr.description)] h1 h2
  have hup := requestWithSession2_session (c := c) env.loginResp "PUT"
    ("/api/groups/" ++ gru.name)
    [("name", gru.name), ("comment", gru.description), ("enabled", optBoolStr gru.enabled)] h1 h2
  have hdel := requestWithSession2_session (c := c) env.loginResp "DELETE"
    ("/api/groups/" ++ name) [] h1 h2
  refine ⟨?_, ?_, ?_, ?_, ?_, ?_⟩
  · intro hst
    simp [Client.CreateGroup, hc, hname, hcr, hst]
  · intro hst
    rcases hget : c.GetGroup (goTrimSpace gr.name) env with ⟨r, t3⟩
    simp [Client.CreateGroup, hc, hname, hcr, hst, hget]
  · intro hst
    simp [Client.UpdateGroup, hc, hup, hst]
  · intro hst
    rcases hget : c.GetGroup gru.name env with ⟨r, t3⟩
    simp [Client.UpdateGroup, hc, hup, hst, hget]
  · by_cases hst : env.deleteGroupStatus = 204 <;>
      simp [Client.DeleteGroup, hc, hdel, hst]
  · intro hst
    simp [Client.DeleteGroup, hc, hdel, hst]

/-- An appliance refusing the group create with a 500. -/
def badCreateEnv : Env := { okEnv with createGroupStatus := 500 }

theorem group_mutation_status_codes_witness :
    (sessClient.CreateGroup ⟨"g", ""⟩ badCreateEnv).1 =
      .error (.unexpectedStatus "failed to create group" 500) ∧
    (sessClient.DeleteGroup "g" okEnv).1 = .ok () :=
  ⟨(group_mutation_status_codes sessClient badCreateEnv ⟨"g", ""⟩ ⟨"g", none, ""⟩ "g"
      rfl (by decide) (by decide) (by decide)).1 (by decide),
   (group_mutation_status_codes sessClient okEnv ⟨"g", ""⟩ ⟨"g", none, ""⟩ "g"
      rfl (by decide) (by decide) (by decide)).2.2.2.2.1.mpr rfl⟩

theorem mem_of_mem_dropWhile {p : Char → Bool} {l : List Char} {x : Char}
    (h : x ∈ l.dropWhile p) : x ∈ l := by
  induction l with
  | nil => simp at h
  | cons a t ih =>
    rw [List.dropWhile_cons] at h
    by_cases hp : p a = true
    · simp [hp] at h
      exact List.mem_cons_of_mem a (ih h)
    · simp [hp] at h
      simpa using h

theorem mem_of_mem_trimChars {l : List Char} {x : Char}
    (h : x ∈ trimChars l) : x ∈ l := by
  unfold trimChars at h
  rw [List.mem_reverse] at h
  have h2 := mem_of_mem_dropWhile h
  rw [List.mem_reverse] at h2
  exact mem_of_mem_dropWhile h2

/-- Trimming white space cannot introduce a `\s`-class character. -/
theorem validGroupName_goTrimSpace {name : String}
    (h : validGroupName name = true) : validGroupName (goTrimSpace name) = true := by
  unfold validGroupName at h ⊢
  rw [List.all_eq_true] at h ⊢
  intro x hx
  exact h x (mem_of_mem_trimChars hx)

/-- C3 counterexample: the name `"x "` contains whitespace (it does not match
the `^\S*$` pattern), yet `CreateGroup` trims it before validating and issues
the network requests. -/
theorem create_group_trailing_space_forwarded :
    validGroupName "x " = false ∧
    (sessClient.CreateGroup ⟨"x ", ""⟩ okEnv).2 =
      [NetCall.http "POST" "/api/groups" [("name", "x "), ("comment", "")],
       NetCall.http "GET" "/api/groups" []] := by
  constructor
  · decide
  · decide

/-- C3 (amended): `CreateGroup` rejects a request locally, with no network
call, exactly when the name still contains a `\s`-class character after
`strings.TrimSpace`: a trimmed-invalid name yields the local error with an
empty network trace, while every trimmed-valid name is forwarded to the
appliance with the original (untrimmed) name in the request body; names
matching `^\S*$` are trimmed-valid, hence forwarded with that name. -/
theorem create_group_name_validation (c : Client) (gr : GroupCreateRequest) (env : Env)
    (hc : c.tokenClient = none) :
    (validGroupName (goTrimSpace gr.name) = false →
      c.CreateGroup gr env =
        (.error (.message "group names must not contain spaces"), [])) ∧
    (validGroupName (goTrimSpace gr.name) = true →
        c.sessionToken ≠ "" → c.sessionID ≠ "" →
      ∃ rest, (c.CreateGroup gr env).2 =
        NetCall.http "POST" "/api/groups"
          [("name", gr.name), ("comment", gr.description)] :: rest) ∧
    (validGroupName gr.name = true → validGroupName (goTrimSpace gr.name) = true) := by
  refine ⟨?_, ?_, fun h => validGroupName_goTrimSpace h⟩
  · intro hbad
    simp [Client.CreateGroup, hc, hbad]
  · intro hname2 h1 h2
    have hcr := requestWithSession2_session (c := c) env.loginResp "POST" "/api/groups"
      [("name", gr.name), ("comment", gr.description)] h1 h2
    by_cases hst : env.createGroupStatus = 201
    · rcases hget : c.GetGroup (goTrimSpace gr.name) env with ⟨r, t3⟩
      refine ⟨t3, ?_⟩
      simp [Client.CreateGroup, hc, hname2, hcr, hst, hget]
    · refine ⟨[], ?_⟩
      simp [Client.CreateGroup, hc, hname2, hcr, hst]

theorem create_group_name_validation_witness :
    (sessClient.CreateGroup ⟨"has space", ""⟩ okEnv) =
      (.error (.message "group names must not contain spaces"), []) ∧
    (∃ rest, (sessClient.CreateGroup ⟨"x ", ""⟩ okEnv).2 =
      NetCall.http "POST" "/api/groups" [("name", "x "), ("comment", "")] :: rest) ∧
    ∃ rest, (sessClient.CreateGroup ⟨"nospace", ""⟩ okEnv).2 =
      NetCall.http "POST" "/api/groups" [("name", "nospace"), ("comment", "")] :: rest :=
  ⟨(create_group_name_validation sessClient ⟨"has space", ""⟩ okEnv rfl).1 (by decide),
   (create_group_name_validation sessClient ⟨"x ", ""⟩ okEnv rfl).2.1
     (by decide) (by decide) (by decide),
   (create_group_name_validation sessClient ⟨"nospace", ""⟩ okEnv rfl).2.1
     ((create_group_name_validation sessClient ⟨"nospace", ""⟩ okEnv rfl).2.2 (by decide))
     (by decide) (by decide)⟩

/-- The first value contributed per matching entry by one input value set
during a merge: `Add` is called with `v[0]` for every entry. -/
def firstVals : URLValues → String → List String
  | [], _ => []
  | (k2, vs) :: rest, k =>
    if k2 = k then vs.take 1 ++ firstVals rest k else firstVals rest k

theorem valuesGet_valuesAdd_self (d : URLValues) (k v : String) :
    valuesGet (valuesAdd d k v) k = valuesGet d k ++ [v] := by
  induction d with
  | nil => simp [valuesAdd, valuesGet]
  | cons p rest ih =>
    by_cases hp : p.1 = k
    · simp [valuesAdd, valuesGet, hp]
    · simp [valuesAdd, valuesGet, hp, ih]

theorem valuesGet_valuesAdd_ne (d : URLValues) (k v k2 : String) (hne : k2 ≠ k) :
    valuesGet (valuesAdd d k v) k2 = valuesGet d k2 := by
  have hne2 : k ≠ k2 := Ne.symm hne
  induction d with
  | nil => simp [valuesAdd, valuesGet, hne2]
  | cons p rest ih =>
    by_cases hp : p.1 = k
    · simp [valuesAdd, valuesGet, hp, hne2]
    · by_cases hq : p.1 = k2
      · simp [valuesAdd, valuesGet, hp, hq, hne]
      · simp [valuesAdd, valuesGet, hp, hq, ih]

theorem addAllValues_spec (val : URLValues) (d : URLValues)
    (hval : ∀ p ∈ val, p.2 ≠ []) :
    ∃ d2, addAllValues d val = some d2 ∧
      ∀ k, valuesGet d2 k = valuesGet d k ++ firstVals val k := by
  induction val generalizing d with
  | nil => exact ⟨d, rfl, fun k => by simp [firstVals]⟩
  | cons p rest ih =>
    obtain ⟨k2, vs⟩ := p
    have hne : vs ≠ [] := hval (k2, vs) (List.mem_cons_self _ _)
    cases vs with
    | nil => exact absurd rfl hne
    | cons v0 tl =>
      obtain ⟨d2, hd2, hg⟩ := ih (valuesAdd d k2 v0) (fun q hq => hval q (by simp [hq]))
      refine ⟨d2, by simpa [addAllValues] using hd2, ?_⟩
      intro k
      rw [hg k]
      by_cases hk : k2 = k
      · subst hk
        rw [valuesGet_valuesAdd_self]
        simp [firstVals, List.append_assoc]
      · rw [valuesGet_valuesAdd_ne d k2 v0 k (fun h => hk h.symm)]
        simp [firstVals, hk]

theorem firstVals_eq_nil_of_not_mem (val : URLValues) (k : String)
    (h : k ∉ val.map Prod.fst) : firstVals val k = [] := by
  induction val with
  | nil => rfl
  | cons p rest ih =>
    obtain ⟨k2, vs⟩ := p
    have h1 : ¬(k2 = k) := fun hk => h (by simp [hk])
    have h2 : k ∉ rest.map Prod.fst := fun hm => h (by simp [hm])
    simp [firstVals, h1, ih h2]

theorem firstVals_of_nodup (val : URLValues) (k : String)
    (h : (val.map Prod.fst).Nodup) :
    firstVals val k = (valuesGet val k).take 1 := by
  induction val with
  | nil => rfl
  | cons p rest ih =>
    obtain ⟨k2, vs⟩ := p
    rw [List.map_cons] at h
    obtain ⟨hnotmem, hnd⟩ := List.nodup_cons.mp h
    by_cases hk : k2 = k
    · subst hk
      rw [firstVals, valuesGet]
      simp [firstVals_eq_nil_of_not_mem rest k2 hnotmem]
    · rw [firstVals, valuesGet]
      simp [hk, ih hnd]

/-- C7 counterexample: merging two value sets that both carry the key
`token` does not keep exactly one value for the key (the value of the last
input); `Add` appends, so both values are retained in input order. -/
theorem merge_url_values_appends_counterexample :
    mergeURLValues [[("token", ["a"])], [("token", ["b"])]] =
      some [("token", ["a", "b"])] ∧
    valuesGet [("token", ["a", "b"])] "token" ≠ ["b"] := by
  constructor
  · rfl
  · decide

/-- C7 (amended): for map-shaped inputs (unique keys, non-empty value
slices), the merge of the `token=<csrf>` set with the caller values holds,
for each key, the first value of that key from each input in which the key
appears, concatenated in input order; a key present in several inputs keeps
one value per input rather than a single last-input value. -/
theorem merge_url_values_append_spec (v1 v2 : URLValues) (k : String)
    (h1 : (v1.map Prod.fst).Nodup) (h2 : (v2.map Prod.fst).Nodup)
    (hn1 : ∀ p ∈ v1, p.2 ≠ []) (hn2 : ∀ p ∈ v2, p.2 ≠ []) :
    ∃ m, mergeURLValues [v1, v2] = some m ∧
      valuesGet m k = (valuesGet v1 k).take 1 ++ (valuesGet v2 k).take 1 := by
  obtain ⟨d1, hd1, hg1⟩ := addAllValues_spec v1 [] hn1
  obtain ⟨d2, hd2, hg2⟩ := addAllValues_spec v2 d1 hn2
  refine ⟨d2, ?_, ?_⟩
  · simp [mergeURLValues, mergeURLValuesAux, hd1, hd2]
  · rw [hg2 k, hg1 k, firstVals_of_nodup v1 k h1, firstVals_of_nodup v2 k h2]
    rfl

theorem merge_url_values_append_spec_witness :
    ∃ m, mergeURLValues [[("token", ["csrf1"])], [("token", ["x"]), ("a", ["y"])]] =
        some m ∧
      valuesGet m "token" =
        (valuesGet [("token", ["csrf1"])] "token").take 1 ++
          (valuesGet [("token", ["x"]), ("a", ["y"])] "token").take 1 :=
  merge_url_values_append_spec [("token", ["csrf1"])] [("token", ["x"]), ("a", ["y"])]
    "token" (by decide) (by decide) (by decide) (by decide)

/-- C1: evaluation at the failing input.  Starting from a session-mode client
whose session identifier and CSRF token are both absent, the first
`ListDNSRecords` call succeeds, yet two successive calls on the same client
perform two logins — not the claimed single one — because the operations
receive the client by value, so the session obtained by the implicit login
never reaches the caller and each call logs in again. -/
theorem two_list_calls_two_logins :
    (freshSessClient.ListDNSRecords okEnv).1 =
      .ok [{ domain := "host.local", ip := "1.2.3.4" }] ∧
    countLogins (twoListDNSRecordsTrace freshSessClient okEnv) = 2 := by
  constructor
  · decide
  · decide

/-- On a client with no session identifier and no CSRF token, each
`ListDNSRecords` call triggers exactly one login, placed before the resource
request; the request is built from a client copy whose session fields are
then populated with the sid and csrf of the login response, but the caller
keeps the original client (Go value receiver), so a second call performs a
second login. -/
theorem list_dns_session_login_behavior (c : Client) (env : Env)
    (hc : c.tokenClient = none) (hsid : c.sessionID = "") (htok : c.sessionToken = "")
    (hst : env.loginResp.status = 200)
    (hsid2 : env.loginResp.sid ≠ "") (hcsrf : env.loginResp.csrf ≠ "") :
    (∃ c2, (c.RequestWithSession2 env.loginResp "GET" "/api/config/dns/hosts" []).1 =
        .ok (c2, ⟨"GET", "/api/config/dns/hosts", []⟩) ∧
      c2.sessionID = env.loginResp.sid ∧ c2.sessionToken = env.loginResp.csrf) ∧
    (c.ListDNSRecords env).2 =
      [NetCall.login, NetCall.http "GET" "/api/config/dns/hosts" []] ∧
    twoListDNSRecordsTrace c env =
      [NetCall.login, NetCall.http "GET" "/api/config/dns/hosts" [],
       NetCall.login, NetCall.http "GET" "/api/config/dns/hosts" []] ∧
    countLogins (twoListDNSRecordsTrace c env) = 2 := by
  have hlogin : c.Login env.loginResp =
      .ok { c with sessionID := env.loginResp.sid, sessionToken := env.loginResp.csrf } := by
    unfold Client.Login Client.login
    simp [hst, hcsrf, hsid2]
  have hreq : c.RequestWithSession2 env.loginResp "GET" "/api/config/dns/hosts" [] =
      (.ok ({ c with sessionID := env.loginResp.sid, sessionToken := env.loginResp.csrf },
        ⟨"GET", "/api/config/dns/hosts", []⟩), [NetCall.login]) := by
    unfold Client.RequestWithSession2
    simp [htok, hlogin]
  have htrace : (c.ListDNSRecords env).2 =
      [NetCall.login, NetCall.http "GET" "/api/config/dns/hosts" []] := by
    by_cases hs : env.dnsHostsStatus = 200
    · cases hp : parseDNSHosts env.dnsHosts <;>
        simp [Client.ListDNSRecords, hc, hreq, hs, hp]
    · simp [Client.ListDNSRecords, hc, hreq, hs]
  refine ⟨⟨_, by rw [hreq], rfl, rfl⟩, htrace, ?_, ?_⟩
  · simp [twoListDNSRecordsTrace, htrace]
  · simp [twoListDNSRecordsTrace, htrace, countLogins]

theorem list_dns_session_login_behavior_witness :
    twoListDNSRecordsTrace freshSessClient okEnv =
      [NetCall.login, NetCall.http "GET" "/api/config/dns/hosts" [],
       NetCall.login, NetCall.http "GET" "/api/config/dns/hosts" []] :=
  (list_dns_session_login_behavior freshSessClient okEnv rfl rfl rfl rfl
    (by decide) (by decide)).2.2.1

/-- C10: `New` always derives `webPassword` with `doubleHash256`, a
sixty-four-character (hence non-empty) string even for the empty password, so
the `webPassword is not set` branch of `Init` can never fire; `Init` reports
`ClientValidationFailed` exactly when the URL is empty, or no token client is
configured and the password is empty, and succeeds otherwise. -/
theorem new_init_validation (config : Config) :
    (New config).webPassword = doubleHash256 config.password ∧
    (New config).webPassword.length = 64 ∧
    (New config).webPassword ≠ "" ∧
    ((New config).Init = .ok () ↔
      ¬(config.url = "" ∨ (config.apiToken = "" ∧ config.password = ""))) ∧
    ((∃ msg, (New config).Init = .error (.clientValidationFailed msg)) ↔
      (config.url = "" ∨ (config.apiToken = "" ∧ config.password = ""))) := by
  refine ⟨rfl, doubleHash256_length _, doubleHash256_ne_empty _, ?_, ?_⟩
  · by_cases hu : config.url = ""
    · simp [Client.Init, New, hu]
    · by_cases ht : config.apiToken = ""
      · by_cases hp : config.password = ""
        · simp [Client.Init, New, hu, ht, hp]
        · simp [Client.Init, New, hu, ht, hp, doubleHash256_ne_empty config.password]
      · simp [Client.Init, New, hu, ht]
  · by_cases hu : config.url = ""
    · exact ⟨fun _ => Or.inl hu, fun _ => ⟨"Pi-hole URL is not set", by simp [Client.Init, New, hu]⟩⟩
    · by_cases ht : config.apiToken = ""
      · by_cases hp : config.password = ""
        · exact ⟨fun _ => Or.inr ⟨ht, hp⟩,
            fun _ => ⟨"password is not set", by simp [Client.Init, New, hu, ht, hp]⟩⟩
        · constructor
          · rintro ⟨msg, hmsg⟩
            rw [show (New config).Init = .ok () by
              simp [Client.Init, New, hu, ht, hp, doubleHash256_ne_empty config.password]] at hmsg
            cases hmsg
          · rintro (h | ⟨-, h⟩)
            · exact absurd h hu
            · exact absurd h hp
      · constructor
        · rintro ⟨msg, hmsg⟩
          rw [show (New config).Init = .ok () by simp [Client.Init, New, hu, ht]] at hmsg
          cases hmsg
        · rintro (h | ⟨h, -⟩)
          · exact absurd h hu
          · exact absurd h ht

end Pihole
